import Mathlib

/-!
Verification of the Dev-Interview-AI frontend logic.

This file shallowly embeds the pure logic of the repository's frontend:

* `src/frontend/constants.tsx` — interview duration limits and `clampDuration`;
* `src/frontend/components/Report.tsx` — `summarizeScores`, `buildFallbackReport`,
  `buildUiQuestions`, and the interview-room session flow controller
  (`InterviewRoomLayout`: `handlePrimaryAction`, `handleFinish`,
  `finalizeInterview`, the `next_question` effect);
* `src/frontend/hooks/useAudioRecorder.ts` — the recorder `start` operation;
* `src/frontend/services/backendApi.ts` — the `apiFetch` error mapping.

JavaScript `number` values are idealised as exact rationals (`ℚ`); the
non-finite values relevant to `clampDuration` are modelled explicitly with
`JsNum`.  `Number(x.toFixed(2))` is modelled by `round2` (round half towards
positive infinity at the second decimal, as the `toFixed` specification picks
the larger candidate on ties).  React `useState` / `useRef` cells become fields
of explicit state records, and each `async` handler of the interview room is
cut at its `await` points into separate atomic actions of a step function, so
that interleavings that the browser event loop permits are represented.
-/

/-- Language codes from `src/frontend` `types` (`LanguageCode`). -/
inductive LanguageCode
  | en
  | ptBR
  | es
deriving DecidableEq

/-- Career tracks from the `Track` union type. -/
inductive Track
  | frontend
  | backend
  | fullstack
  | mobile
  | devops
  | data
deriving DecidableEq

/-- Seniority levels from the `Seniority` union type. -/
inductive Seniority
  | intern
  | junior
  | mid
  | senior
  | staff
deriving DecidableEq

/-- Interviewer styles from the `InterviewStyle` union type. -/
inductive InterviewStyle
  | friendly
  | neutral
  | strict
deriving DecidableEq

/-- Plan tiers from the `PlanType` union type. -/
inductive PlanType
  | free
  | pro
deriving DecidableEq

/-- A JavaScript `number` as consumed by `clampDuration`: either a finite
value (idealised as a rational) or one of the non-finite values for which
`Number.isFinite` returns `false`. -/
inductive JsNum
  | num (q : ℚ)
  | nan
  | inf
  | negInf
deriving DecidableEq

/-- `InterviewConfig` from `src/frontend` `types`.  `difficultyLevel` is the
optional `DifficultyLevel` (`1 | 2 | 3`), modelled as an optional `Nat`.  The
source field `stacks` is renamed `stacks'` because `stacks` is a reserved
token of the Mathlib environment. -/
structure InterviewConfig where
  uiLanguage : LanguageCode
  interviewLanguage : LanguageCode
  track : Track
  seniority : Seniority
  stacks' : List String
  style : InterviewStyle
  duration : JsNum
  jobDescription : Option String
  plan : PlanType
  difficultyLevel : Option Nat
deriving DecidableEq

/-- Question sections of `InterviewPlan.questions[].section`
(`'hr' | 'technical' | 'design' | 'behavioral'`).  Named `QSection` because
`section` is a Lean keyword. -/
inductive QSection
  | hr
  | technical
  | design
  | behavioral
deriving DecidableEq

/-- One entry of `InterviewPlan.questions`. -/
structure PlanQuestion where
  id : String
  sectionTag : QSection
  difficulty : ℚ
  prompt : String
deriving DecidableEq

/-- The per-section counts of `InterviewPlan.blueprint`. -/
structure Blueprint where
  hr : Nat
  technical : Nat
  design : Nat
  behavioral : Nat
deriving DecidableEq

/-- `InterviewPlan` from `src/frontend` `types`.  `mustHaveSkills` and
`questions` are declared required in TypeScript but every consumer guards them
with `?? []` (`buildUiQuestions`, `buildFallbackReport`), so they are modelled
as optional to make those guards meaningful. -/
structure InterviewPlan where
  roleTitleGuess : String
  seniorityGuess : String
  mustHaveSkills : Option (List String)
  blueprint : Blueprint
  questions : Option (List PlanQuestion)
deriving DecidableEq

/-- The four per-answer score dimensions (`AnswerEvaluation.scores`, also the
shape of `FinalReport.scoresSummary`). -/
structure Scores where
  communication : ℚ
  technical : ℚ
  problemSolving : ℚ
  presence : ℚ
deriving DecidableEq

/-- `AnswerEvaluation` from `src/frontend` `types`. -/
structure AnswerEvaluation where
  scores : Scores
  strengths : List String
  improvements : List String
  followUpNeeded : Bool
  followUpQuestion : Option String
  transcript : String
deriving DecidableEq

/-- `FinalReport.jobMatch`. -/
structure JobMatch where
  covered : List String
  gaps : List String
deriving DecidableEq

/-- `FinalReport.feedback`. -/
structure Feedback where
  posture : List String
  communication : List String
  technical : List String
  language : List String
deriving DecidableEq

/-- One entry of `FinalReport.plan7Days`. -/
structure Plan7Day where
  day : Nat
  task : String
deriving DecidableEq

/-- `FinalReport` from `src/frontend` `types`. -/
structure FinalReport where
  overallScore : ℚ
  levelEstimate : Seniority
  jobMatch : JobMatch
  feedback : Feedback
  plan7Days : List Plan7Day
  scoresSummary : Option Scores
deriving DecidableEq

/-- The `HistoryItem` record type local to `InterviewRoomLayout`
(`Report.tsx`).  `section` is renamed `sectionTag` (Lean keyword); the
`evaluation` field is required there, matching the declared type. -/
structure HistoryItem where
  questionId : String
  question : String
  sectionTag : Option QSection
  difficulty : Option ℚ
  evaluation : AnswerEvaluation
deriving DecidableEq

/-- `INTERVIEW_LIMITS` from `src/frontend/constants.tsx` with the defaults
used when the `VITE_INTERVIEW_*` environment overrides are absent:
`min = 10`, `free = 15`, `pro = 25`. -/
structure InterviewLimits where
  min : ℚ
  free : ℚ
  pro : ℚ
deriving DecidableEq

def INTERVIEW_LIMITS : InterviewLimits := { min := 10, free := 15, pro := 25 }

/-- `clampDuration` from `src/frontend/constants.tsx`:
`Number.isFinite(duration)` selects the value, falling back to the plan
maximum; the result is `Math.max(min, Math.min(safe, max))`. -/
def clampDuration (duration : JsNum) (plan : PlanType) : ℚ :=
  let max : ℚ := if plan = PlanType.pro then INTERVIEW_LIMITS.pro else INTERVIEW_LIMITS.free
  let safe : ℚ := match duration with
    | JsNum.num q => q
    | _ => max
  Max.max INTERVIEW_LIMITS.min (Min.min safe max)

/-- The plan maximum picked by `clampDuration` (inline ternary in the
source). -/
def planMax (plan : PlanType) : ℚ :=
  if plan = PlanType.pro then INTERVIEW_LIMITS.pro else INTERVIEW_LIMITS.free

/-- The effective duration sent by `Lobby.handleEnter`
(`src/frontend/components/Lobby.tsx`, `effectiveConfig` passed to
`BackendApi.startSession`). -/
def effectiveDuration (config : InterviewConfig) : ℚ :=
  clampDuration config.duration config.plan

/-- Model of `Number(x.toFixed(2))` on idealised numbers: round to two
decimals, taking the larger candidate on ties, as specified for `toFixed`. -/
def round2 (q : ℚ) : ℚ := (Int.floor (q * 100 + 1 / 2) : ℚ) / 100

/-- One step of the `history.forEach` accumulation in `summarizeScores`
(`Report.tsx`): add the item's four scores to the running totals and bump the
count.  The source reads `item.evaluation?.scores` and `?? 0` defensively, but
the `HistoryItem` type makes `evaluation` and all four scores present, so the
guard `if (!scores) return` never skips an item and every item contributes. -/
def summarizeStep (acc : Scores × ℚ) (item : HistoryItem) : Scores × ℚ :=
  let scores := item.evaluation.scores
  ({ communication := acc.1.communication + scores.communication
     technical := acc.1.technical + scores.technical
     problemSolving := acc.1.problemSolving + scores.problemSolving
     presence := acc.1.presence + scores.presence }, acc.2 + 1)

/-- `summarizeScores` from `Report.tsx`: empty history yields
`(overall 0, no summary)`; otherwise per-dimension totals are averaged, each
average is rounded to two decimals, and the overall score is the rounded mean
of the four rounded averages. -/
def summarizeScores (history : List HistoryItem) : ℚ × Option Scores :=
  if history.length = 0 then (0, none)
  else
    let agg := history.foldl summarizeStep (⟨0, 0, 0, 0⟩, 0)
    let totals := agg.1
    let count := agg.2
    if count = 0 then (0, none)
    else
      let summary : Scores :=
        { communication := round2 (totals.communication / count)
          technical := round2 (totals.technical / count)
          problemSolving := round2 (totals.problemSolving / count)
          presence := round2 (totals.presence / count) }
      (round2 ((summary.communication + summary.technical +
          summary.problemSolving + summary.presence) / 4), some summary)

/-- `buildFallbackReport` from `Report.tsx`: the locally synthesized
`FinalReport` used when the backend `final-report` call fails. -/
def buildFallbackReport (history : List HistoryItem) (config : InterviewConfig)
    (plan : InterviewPlan) : FinalReport :=
  let s := summarizeScores history
  let strengths := history.flatMap (fun item => item.evaluation.strengths)
  let improvements := history.flatMap (fun item => item.evaluation.improvements)
  { overallScore := s.1
    levelEstimate := config.seniority
    jobMatch := { covered := plan.mustHaveSkills.getD [], gaps := [] }
    feedback :=
      { posture := []
        communication := improvements.take 5
        technical := strengths.take 5
        language := [] }
    plan7Days := []
    scoresSummary := s.2 }

/-- Spec-side helper: the raw (unrounded) per-dimension score sums of a
history, used to state what claim C2 calls the per-dimension means. -/
def sumCommunication (history : List HistoryItem) : ℚ :=
  (history.map (fun item => item.evaluation.scores.communication)).sum

def sumTechnical (history : List HistoryItem) : ℚ :=
  (history.map (fun item => item.evaluation.scores.technical)).sum

def sumProblemSolving (history : List HistoryItem) : ℚ :=
  (history.map (fun item => item.evaluation.scores.problemSolving)).sum

def sumPresence (history : List HistoryItem) : ℚ :=
  (history.map (fun item => item.evaluation.scores.presence)).sum

/-- Spec-side helper: all strengths accumulated over a history in order, as
`history.flatMap((item) => item.evaluation?.strengths ?? [])` produces them. -/
def allStrengths (history : List HistoryItem) : List String :=
  history.flatMap (fun item => item.evaluation.strengths)

/-- Spec-side helper: all improvements accumulated over a history in order. -/
def allImprovements (history : List HistoryItem) : List String :=
  history.flatMap (fun item => item.evaluation.improvements)

/-- The media stream handed to `useAudioRecorder` (`MediaStream | null` in the
hook's signature); only its audio track list matters to `start`. -/
structure MediaStreamModel where
  audioTracks : List String
deriving DecidableEq

/-- The browser-provided environment of `useAudioRecorder.start`:
whether `MediaRecorder` is defined, and the current stream prop. -/
structure RecorderEnv where
  mediaRecorderAvailable : Bool
  stream : Option MediaStreamModel
deriving DecidableEq

/-- The mutable cells of `useAudioRecorder`
(`src/frontend/hooks/useAudioRecorder.ts`): the `isRecording` state, the
`error` state, the `recorderRef` (modelled by the audio tracks it was built
over) and the `chunksRef` buffer. -/
structure RecorderState where
  isRecording : Bool
  error : Option String
  recorder : Option (List String)
  chunks : List String
deriving DecidableEq

/-- `useAudioRecorder.start`.  Returns the state after the call together with
the message of the synchronously thrown error, if any.  Mirrors the source
order: `setError(null)` runs first; then the three guards each set an error
message and throw; otherwise the chunk buffer is cleared, a recorder over the
stream's audio tracks is created and started, and `isRecording` is set. -/
def recorderStart (env : RecorderEnv) (s : RecorderState) :
    RecorderState × Option String :=
  let s0 := { s with error := none }
  if env.mediaRecorderAvailable = false then
    ({ s0 with error := some "MediaRecorder indisponivel neste navegador." },
      some "MediaRecorder not available")
  else
    match env.stream with
    | none =>
        ({ s0 with error := some "Stream de audio indisponivel." },
          some "Audio stream not available")
    | some stream =>
        if stream.audioTracks.length = 0 then
          ({ s0 with error := some "Nenhuma faixa de audio encontrada." },
            some "No audio tracks found")
        else
          ({ s0 with
              chunks := []
              recorder := some stream.audioTracks
              isRecording := true }, none)

/-- The condition under which `useAudioRecorder.start` throws, read off the
three guards of the source: the recording subsystem is unavailable, the
stream is null, or the stream has no audio track. -/
def recorderStartFails (env : RecorderEnv) : Bool :=
  !env.mediaRecorderAvailable ||
    (match env.stream with
     | none => true
     | some stream => stream.audioTracks.isEmpty)

/-- An HTTP response as observed by `apiFetch`
(`src/frontend/services/backendApi.ts`): the `ok` flag and `status` of the
`fetch` result, the body text, and the result of `JSON.parse` on that body —
`none` when the body is not valid JSON (or is a JSON value on which property
access fails, such as `null`). -/
structure JsonBody where
  detail : Option String
  error : Option String
deriving DecidableEq

structure HttpResponse where
  ok : Bool
  status : Nat
  bodyText : String
  bodyJson : Option JsonBody
deriving DecidableEq

/-- JavaScript `a || b` on an optional string property `a`: the property value
when it is truthy (present and non-empty), else the fallback. -/
def orTruthy (o : Option String) (fallback : String) : String :=
  match o with
  | some s => if s = "" then fallback else s
  | none => fallback

/-- `apiFetch` from `src/frontend/services/backendApi.ts`, as a function of
the observed response.  A non-ok response is mapped to a thrown error whose
message is `j.detail || j.error || text` when the body parses as JSON, plain
`text` otherwise, and `"HTTP <status>"` when that is still empty.  An ok
response returns the parsed JSON body; `res.json()` rejects when the body is
not valid JSON (the message of that rejection is environment-provided; a fixed
placeholder is used here and no theorem depends on it). -/
def apiFetch (res : HttpResponse) : Except String JsonBody :=
  if res.ok = false then
    let text := res.bodyText
    let detail :=
      match res.bodyJson with
      | some j => orTruthy j.detail (orTruthy j.error text)
      | none => text
    Except.error (if detail = "" then "HTTP " ++ toString res.status else detail)
  else
    match res.bodyJson with
    | some j => Except.ok j
    | none => Except.error "JSON parse error"

/-- Whether an `apiFetch` call throws. -/
def apiThrows (res : HttpResponse) : Bool :=
  match apiFetch res with
  | Except.error _ => true
  | Except.ok _ => false

/-- The error message the spec sentence describes, written independently of
`apiFetch`: the `detail` field if the body is JSON with a truthy `detail`,
else the `error` field if truthy, else the raw body text, else
`"HTTP <status>"` when that text is empty. -/
def specErrorMessage (res : HttpResponse) : String :=
  match res.bodyJson with
  | some j =>
      match j.detail with
      | some d =>
          if d ≠ "" then d
          else
            match j.error with
            | some e =>
                if e ≠ "" then e
                else if res.bodyText ≠ "" then res.bodyText
                else "HTTP " ++ toString res.status
            | none =>
                if res.bodyText ≠ "" then res.bodyText
                else "HTTP " ++ toString res.status
      | none =>
          match j.error with
          | some e =>
              if e ≠ "" then e
              else if res.bodyText ≠ "" then res.bodyText
              else "HTTP " ++ toString res.status
          | none =>
              if res.bodyText ≠ "" then res.bodyText
              else "HTTP " ++ toString res.status
  | none =>
      if res.bodyText ≠ "" then res.bodyText
      else "HTTP " ++ toString res.status

/-- The session flow states of `InterviewRoomLayout`
(`InterviewFlowState` in `Report.tsx`). -/
inductive FlowState
  | idle
  | asking
  | awaitingAnswer
  | recording
  | evaluating
  | nextQuestion
  | finished
deriving DecidableEq

/-- A display question built by `buildUiQuestions` (`UiQuestion` in
`Report.tsx`).  The constant `type: 'open'` field carries no information and
is omitted; `section` is renamed `sectionTag`. -/
structure UiQuestion where
  id : String
  title : String
  difficulty : Nat
  topic : String
  bullets : List String
  sectionTag : Option QSection
  sourceDifficulty : Option ℚ
deriving DecidableEq

/-- `mapDifficultyToLevel` from `Report.tsx`.  The argument is the plan
question's `difficulty`, always a number here, so the `typeof` fallback to 3
does not fire. -/
def mapDifficultyToLevel (value : ℚ) : Nat :=
  if value ≤ 2 then 1 else if value ≤ 4 then 2 else 3

/-- `mapSectionToTopic` from `Report.tsx`.  The section is always one of the
four known tags here, so the default branch (`'scalability'`) is not
reachable from `buildUiQuestions`. -/
def mapSectionToTopic (sectionTag : QSection) : String :=
  match sectionTag with
  | QSection.design => "system_design"
  | QSection.technical => "algorithms"
  | QSection.behavioral => "default"
  | QSection.hr => "default"

/-- `buildUiQuestions` from `Report.tsx`: maps each plan question (index
aware, for the `q${index + 1}` id fallback on a falsy id) to a `UiQuestion`,
with the first three must-have skills as bullets. -/
def buildUiQuestions (plan : InterviewPlan) : List UiQuestion :=
  let baseBullets := (plan.mustHaveSkills.getD []).take 3
  (plan.questions.getD []).enum.map (fun p =>
    { id := if p.2.id = "" then "q" ++ toString (p.1 + 1) else p.2.id
      title := p.2.prompt
      difficulty := mapDifficultyToLevel p.2.difficulty
      topic := mapSectionToTopic p.2.sectionTag
      bullets := baseBullets
      sectionTag := some p.2.sectionTag
      sourceDifficulty := some p.2.difficulty })

/-- `selectedLevel` in `InterviewRoomLayout`: `config.difficultyLevel ?? 3`. -/
def selectedLevel (config : InterviewConfig) : Nat :=
  config.difficultyLevel.getD 3

/-- `activeQuestions` in `InterviewRoomLayout`: the questions filtered to the
selected difficulty level, falling back to the full unfiltered list when the
filter yields none. -/
def activeQuestions (config : InterviewConfig) (plan : InterviewPlan) :
    List UiQuestion :=
  let uiQuestions := buildUiQuestions plan
  let filtered := uiQuestions.filter (fun q => q.difficulty = selectedLevel config)
  if filtered.length ≠ 0 then filtered else uiQuestions

/-- The per-session mutable state of `InterviewRoomLayout`.  `currentIndex`,
`flowState` are React state; `history` is `historyRef.current`;
`pendingEval` records that `handlePrimaryAction` is suspended on the
`stopRecording` / `blobToBase64` / `evaluateAudio` awaits of its
`recording` branch; `finalizing` is `finishingRef.current` together with the
history argument captured by the in-flight `finalizeInterview` call;
`delivered` collects the reports passed to the `onFinish` callback. -/
structure RoomState where
  currentIndex : Nat
  flowState : FlowState
  history : List HistoryItem
  pendingEval : Bool
  finalizing : Option (List HistoryItem)
  delivered : List FinalReport
deriving DecidableEq

/-- The initial state after mount (and after the reset effect on
`[plan, selectedLevel]` runs once): empty history, index 0, `idle`. -/
def initialRoomState : RoomState :=
  { currentIndex := 0
    flowState := FlowState.idle
    history := []
    pendingEval := false
    finalizing := none
    delivered := [] }

/-- The atomic events of one session of the interview room, one per
synchronous segment of the source handlers and effects:

* `askStart` / `askDone` — the question effect enters `asking` and, when
  playback completes (or no audio element exists), `awaiting_answer`;
* `startRec ok` — the `awaiting_answer` branch of `handlePrimaryAction`;
  `ok = false` is a synchronous `startRecording` throw (caught and logged);
* `stopAndEval` — the `recording` branch up to its first await: the state
  becomes `evaluating` and the evaluation round-trip is now in flight;
* `evalResult r` — that round-trip settles; `some e` is a successful
  `evaluateAudio` response, `none` any rejection caught by the branch's
  `catch`;
* `advance` — the `next_question` timeout fires and the index advances,
  clamped to the last index, re-triggering the question effect;
* `finishBegin` — `handleFinish` / the last-question call reaches
  `finalizeInterview`, which no-ops if a finalization is in flight and
  otherwise records the captured history and enters `finished`;
* `finishResolve r` — the `finalReport` backend call settles; `some rep`
  delivers the backend report, `none` delivers the locally built fallback
  report; `finishingRef` is reset in the `finally` block. -/
inductive RoomAction
  | askStart
  | askDone
  | startRec (ok : Bool)
  | stopAndEval
  | evalResult (result : Option AnswerEvaluation)
  | advance
  | finishBegin
  | finishResolve (backendReport : Option FinalReport)
deriving DecidableEq

/-- `currentQuestion` in `InterviewRoomLayout`:
`activeQuestions[currentIndex] ?? activeQuestions[0]`. -/
def currentQuestion (config : InterviewConfig) (plan : InterviewPlan)
    (s : RoomState) : Option UiQuestion :=
  match (activeQuestions config plan)[s.currentIndex]? with
  | some q => some q
  | none => (activeQuestions config plan)[0]?

/-- One atomic event of the interview room.  Guards mirror the source:
`handlePrimaryAction` returns early without a current question or while
`evaluating` / `finished`; the `next_question` effect requires a non-empty
active list; `finalizeInterview` early-returns while `finishingRef` is set.
The continuation of the `recording` branch (`evalResult`) runs whenever the
awaited promise settles — the source re-checks nothing there, so it is
guarded only by `pendingEval`; its captured `currentIndex`, `currentQuestion`
and `activeQuestions` coincide with the current ones because no reachable
action changes them while the evaluation is in flight. -/
def roomStep (config : InterviewConfig) (plan : InterviewPlan) (s : RoomState) :
    RoomAction → RoomState
  | RoomAction.askStart =>
      if s.flowState = FlowState.idle ∧ (currentQuestion config plan s).isSome then
        { s with flowState := FlowState.asking }
      else s
  | RoomAction.askDone =>
      if s.flowState = FlowState.asking then
        { s with flowState := FlowState.awaitingAnswer }
      else s
  | RoomAction.startRec ok =>
      if s.flowState = FlowState.awaitingAnswer ∧
          (currentQuestion config plan s).isSome then
        if ok then { s with flowState := FlowState.recording } else s
      else s
  | RoomAction.stopAndEval =>
      if s.flowState = FlowState.recording ∧
          (currentQuestion config plan s).isSome then
        { s with flowState := FlowState.evaluating, pendingEval := true }
      else s
  | RoomAction.evalResult result =>
      if s.pendingEval then
        match result with
        | none =>
            { s with flowState := FlowState.awaitingAnswer, pendingEval := false }
        | some evaluation =>
            match currentQuestion config plan s with
            | none => { s with pendingEval := false }
            | some q =>
                let item : HistoryItem :=
                  { questionId := q.id
                    question := q.title
                    sectionTag := q.sectionTag
                    difficulty := q.sourceDifficulty
                    evaluation := evaluation }
                let newHistory := s.history ++ [item]
                if (activeQuestions config plan).length - 1 ≤ s.currentIndex then
                  match s.finalizing with
                  | some _ =>
                      { s with history := newHistory, pendingEval := false }
                  | none =>
                      { s with
                          history := newHistory
                          pendingEval := false
                          flowState := FlowState.finished
                          finalizing := some newHistory }
                else
                  { s with
                      history := newHistory
                      pendingEval := false
                      flowState := FlowState.nextQuestion }
      else s
  | RoomAction.advance =>
      if s.flowState = FlowState.nextQuestion ∧
          (activeQuestions config plan).length ≠ 0 then
        let ni := Nat.min (s.currentIndex + 1) ((activeQuestions config plan).length - 1)
        { s with
            currentIndex := ni
            flowState := if ni ≠ s.currentIndex then FlowState.asking else s.flowState }
      else s
  | RoomAction.finishBegin =>
      match s.finalizing with
      | some _ => s
      | none => { s with flowState := FlowState.finished, finalizing := some s.history }
  | RoomAction.finishResolve backendReport =>
      match s.finalizing with
      | none => s
      | some h =>
          { s with
              finalizing := none
              delivered := s.delivered ++
                [match backendReport with
                 | some rep => rep
                 | none => buildFallbackReport h config plan] }

/-- Run a session: fold the events over the initial state. -/
def runRoom (config : InterviewConfig) (plan : InterviewPlan)
    (acts : List RoomAction) : RoomState :=
  acts.foldl (roomStep config plan) initialRoomState

/-- Recogniser for the settling event of a finalization, used to count how
many reports a trace can deliver. -/
def isFinishResolve : RoomAction → Bool
  | RoomAction.finishResolve _ => true
  | _ => false

/-- The inductive invariant of the session flow controller, over the length
`L` of the active question list.  Beyond the index clamp (`i1`) it records
how far the history can have grown in each flow state, including the states
reachable only through a finish action racing an in-flight evaluation. -/
structure RoomInv (config : InterviewConfig) (plan : InterviewPlan)
    (s : RoomState) : Prop where
  i0 : s.pendingEval = true →
    s.flowState = FlowState.evaluating ∨ s.flowState = FlowState.finished
  i1 : s.currentIndex ≤ (activeQuestions config plan).length - 1
  i2 : s.pendingEval = true →
    s.history.length ≤ s.currentIndex ∧
      s.currentIndex + 1 ≤ (activeQuestions config plan).length
  i3 : s.flowState = FlowState.nextQuestion →
    s.history.length ≤ s.currentIndex + 1 ∧
      s.currentIndex + 2 ≤ (activeQuestions config plan).length
  i4 : s.flowState = FlowState.finished →
    s.history.length ≤ (activeQuestions config plan).length
  i5 : s.flowState = FlowState.idle ∨ s.flowState = FlowState.asking ∨
      s.flowState = FlowState.awaitingAnswer ∨ s.flowState = FlowState.recording →
    s.history.length ≤ s.currentIndex
  i6 : s.flowState = FlowState.evaluating → s.pendingEval = false →
    s.history.length ≤ s.currentIndex + 1 ∧
      s.currentIndex + 1 ≤ (activeQuestions config plan).length

/-- A concrete free-plan configuration used by the concrete-input theorems
below (difficulty level defaulted, so `selectedLevel` is 3). -/
def cfg0 : InterviewConfig :=
  { uiLanguage := LanguageCode.ptBR
    interviewLanguage := LanguageCode.ptBR
    track := Track.frontend
    seniority := Seniority.junior
    stacks' := []
    style := InterviewStyle.friendly
    duration := JsNum.num 15
    jobDescription := none
    plan := PlanType.free
    difficultyLevel := none }

/-- A concrete two-question plan; both questions have source difficulty 5, so
they map to display level 3 and survive the level filter. -/
def plan0 : InterviewPlan :=
  { roleTitleGuess := "Frontend Developer"
    seniorityGuess := "junior"
    mustHaveSkills := some ["React"]
    blueprint := { hr := 0, technical := 2, design := 0, behavioral := 0 }
    questions := some
      [{ id := "q1", sectionTag := QSection.technical, difficulty := 5,
         prompt := "Pergunta 1" },
       { id := "q2", sectionTag := QSection.technical, difficulty := 5,
         prompt := "Pergunta 2" }] }

/-- A concrete successful answer evaluation. -/
def eval0 : AnswerEvaluation :=
  { scores := { communication := 7, technical := 8, problemSolving := 6, presence := 9 }
    strengths := ["boa base"]
    improvements := ["aprofundar"]
    followUpNeeded := false
    followUpQuestion := none
    transcript := "resposta" }

/-- A history item whose fractional scores separate rounding the
per-dimension means before averaging from rounding only at the end. -/
def itemC2 : HistoryItem :=
  { questionId := "q1"
    question := "Pergunta 1"
    sectionTag := some QSection.technical
    difficulty := some 5
    evaluation :=
      { scores :=
          { communication := 1 / 250
            technical := 1 / 250
            problemSolving := 1 / 250
            presence := 1 / 125 }
        strengths := []
        improvements := []
        followUpNeeded := false
        followUpQuestion := none
        transcript := "" } }

/-- A two-item history with six strengths and six improvements in the first
item and one more of each in the second: the capped feedback lists keep the
earliest five entries, so the most recent ones are dropped. -/
def histC5 : List HistoryItem :=
  [{ questionId := "q1"
     question := "Pergunta 1"
     sectionTag := some QSection.technical
     difficulty := some 5
     evaluation :=
       { scores := { communication := 7, technical := 7, problemSolving := 7, presence := 7 }
         strengths := ["s1", "s2", "s3", "s4", "s5", "s6"]
         improvements := ["i1", "i2", "i3", "i4", "i5", "i6"]
         followUpNeeded := false
         followUpQuestion := none
         transcript := "" } },
   { questionId := "q2"
     question := "Pergunta 2"
     sectionTag := some QSection.technical
     difficulty := some 5
     evaluation :=
       { scores := { communication := 7, technical := 7, problemSolving := 7, presence := 7 }
         strengths := ["s7"]
         improvements := ["i7"]
         followUpNeeded := false
         followUpQuestion := none
         transcript := "" } }]

/-- The trace of claim C1's counterexample: answer question 1, and while its
evaluation is in flight, press finish.  The state is `finished` with an empty
history and the evaluation still pending. -/
def traceC1 : List RoomAction :=
  [RoomAction.askStart, RoomAction.askDone, RoomAction.startRec true,
   RoomAction.stopAndEval, RoomAction.finishBegin]

/-- The trace of claim C9's counterexample: as in `traceC1`, but the in-flight
evaluation then succeeds, putting the controller back into `next_question`
while the finalization (captured with the empty history) is still in
flight. -/
def traceC9 : List RoomAction :=
  [RoomAction.askStart, RoomAction.askDone, RoomAction.startRec true,
   RoomAction.stopAndEval, RoomAction.finishBegin,
   RoomAction.evalResult (some eval0)]

/-- The trace of claim C3's counterexample: finish, let the finalization
settle (backend failure, fallback delivered), then finish again — the
`finally` block reset `finishingRef`, so the second finish runs a second
finalization and delivers a second report. -/
def traceC3 : List RoomAction :=
  [RoomAction.finishBegin, RoomAction.finishResolve none,
   RoomAction.finishBegin, RoomAction.finishResolve none]

/-! ## Theorems -/

/-- Claim C4 (confirmed): for every plan tier and every duration input,
`clampDuration` returns a value in the closed interval `[min, planMax]`; for
non-finite input it returns the plan maximum; and the effective duration sent
by `startSession` for a free-plan config with duration 999 is 15, never
999. -/
theorem c4_clampDuration_range (d : JsNum) (p : PlanType) :
    (INTERVIEW_LIMITS.min ≤ clampDuration d p ∧ clampDuration d p ≤ planMax p) ∧
    (clampDuration JsNum.nan p = planMax p ∧
      clampDuration JsNum.inf p = planMax p ∧
      clampDuration JsNum.negInf p = planMax p) ∧
    effectiveDuration
      { cfg0 with duration := JsNum.num 999, plan := PlanType.free } = 15 := by
  have hmax : INTERVIEW_LIMITS.min ≤ planMax p := by
    cases p <;> decide
  have hnf : ∀ d' : JsNum, (∀ q, d' ≠ JsNum.num q) → clampDuration d' p = planMax p := by
    intro d' hd'
    have : clampDuration d' p = Max.max INTERVIEW_LIMITS.min (Min.min (planMax p) (planMax p)) := by
      cases d' with
      | num q => exact absurd rfl (hd' q)
      | nan => rfl
      | inf => rfl
      | negInf => rfl
    rw [this, min_self]
    exact max_eq_right hmax
  refine ⟨?_, ⟨hnf JsNum.nan (by intro q h; cases h), hnf JsNum.inf (by intro q h; cases h),
    hnf JsNum.negInf (by intro q h; cases h)⟩, ?_⟩
  · constructor
    · exact le_max_left _ _
    · cases d with
      | num q => exact max_le hmax (min_le_right _ _)
      | nan => exact max_le hmax (min_le_right _ _)
      | inf => exact max_le hmax (min_le_right _ _)
      | negInf => exact max_le hmax (min_le_right _ _)
  · decide

/-- Claim C10 (confirmed): the fallback report has a fixed shape beyond its
scores — empty 7-day plan, empty gaps, covered skills equal to the plan's
must-have skills (empty if absent), empty posture and language feedback, and
a level estimate equal to the config's seniority. -/
theorem c10_fallback_fixed_shape (history : List HistoryItem)
    (config : InterviewConfig) (plan : InterviewPlan) :
    (buildFallbackReport history config plan).plan7Days = [] ∧
    (buildFallbackReport history config plan).jobMatch.gaps = [] ∧
    (buildFallbackReport history config plan).jobMatch.covered =
      plan.mustHaveSkills.getD [] ∧
    (buildFallbackReport history config plan).feedback.posture = [] ∧
    (buildFallbackReport history config plan).feedback.language = [] ∧
    (buildFallbackReport history config plan).levelEstimate = config.seniority :=
  ⟨rfl, rfl, rfl, rfl, rfl, rfl⟩

/-- Claim C5 (corrected), counterexample: with six strengths accumulated by
the first answer and a seventh by the second, the fallback feedback keeps the
five earliest entries and drops the most recent strength `s7` (likewise for
improvements), so the lists are not populated from the most recent
entries. -/
theorem c5_counterexample :
    (buildFallbackReport histC5 cfg0 plan0).feedback.technical =
      ["s1", "s2", "s3", "s4", "s5"] ∧
    (allStrengths histC5).getLast? = some "s7" ∧
    "s7" ∉ (buildFallbackReport histC5 cfg0 plan0).feedback.technical ∧
    (buildFallbackReport histC5 cfg0 plan0).feedback.communication =
      ["i1", "i2", "i3", "i4", "i5"] ∧
    (allImprovements histC5).getLast? = some "i7" ∧
    "i7" ∉ (buildFallbackReport histC5 cfg0 plan0).feedback.communication := by
  refine ⟨rfl, rfl, by decide, rfl, rfl, by decide⟩

/-- Claim C5 (corrected), amended: the fallback report populates
`feedback.technical` with the earliest (first) five strengths and
`feedback.communication` with the earliest five improvements, in history
order, capped at five entries each. -/
theorem c5_amended (history : List HistoryItem) (config : InterviewConfig)
    (plan : InterviewPlan) :
    (buildFallbackReport history config plan).feedback.technical =
      (allStrengths history).take 5 ∧
    (buildFallbackReport history config plan).feedback.communication =
      (allImprovements history).take 5 ∧
    (buildFallbackReport history config plan).feedback.technical.length ≤ 5 ∧
    (buildFallbackReport history config plan).feedback.communication.length ≤ 5 := by
  refine ⟨rfl, rfl, ?_, ?_⟩ <;>
    simp [buildFallbackReport, List.length_take]

/-- The `forEach` accumulation of `summarizeScores` computes the
per-dimension sums and counts every item (each item carries its scores). -/
theorem foldl_summarizeStep (history : List HistoryItem) (t : Scores) (c : ℚ) :
    history.foldl summarizeStep (t, c) =
      ({ communication := t.communication + sumCommunication history
         technical := t.technical + sumTechnical history
         problemSolving := t.problemSolving + sumProblemSolving history
         presence := t.presence + sumPresence history }, c + history.length) := by
  induction history generalizing t c with
  | nil =>
      simp [sumCommunication, sumTechnical, sumProblemSolving, sumPresence]
  | cons item rest ih =>
      simp only [List.foldl_cons, ih, summarizeStep, sumCommunication,
        sumTechnical, sumProblemSolving, sumPresence, List.map_cons,
        List.sum_cons, List.length_cons, Prod.mk.injEq, Scores.mk.injEq]
      refine ⟨⟨?_, ?_, ?_, ?_⟩, ?_⟩ <;> push_cast <;> ring

/-- On a non-empty history, `summarizeScores` rounds each per-dimension mean
to two decimals and returns the rounded mean of those four rounded values,
together with the rounded summary. -/
theorem summarizeScores_nonempty (history : List HistoryItem)
    (hne : history ≠ []) :
    summarizeScores history =
      (round2 ((round2 (sumCommunication history / history.length) +
          round2 (sumTechnical history / history.length) +
          round2 (sumProblemSolving history / history.length) +
          round2 (sumPresence history / history.length)) / 4),
        some
          { communication := round2 (sumCommunication history / history.length)
            technical := round2 (sumTechnical history / history.length)
            problemSolving := round2 (sumProblemSolving history / history.length)
            presence := round2 (sumPresence history / history.length) }) := by
  have hlen : history.length ≠ 0 := by
    simpa [List.length_eq_zero] using hne
  have hlenQ : (history.length : ℚ) ≠ 0 := by
    exact_mod_cast hlen
  unfold summarizeScores
  rw [if_neg hlen, foldl_summarizeStep]
  simp only [zero_add]
  rw [if_neg hlenQ]

/-- Claim C2 (corrected), counterexample: on the single-item history
`[itemC2]` (scores 1/250, 1/250, 1/250, 1/125) the fallback report's
`overallScore` is 0, while the mean of the four raw per-dimension means
rounded to two decimals — the value the claim asserts — is 1/100: the code
rounds each per-dimension mean to two decimals before averaging. -/
theorem c2_counterexample :
    (buildFallbackReport [itemC2] cfg0 plan0).overallScore = 0 ∧
    round2 ((sumCommunication [itemC2] / ([itemC2] : List HistoryItem).length +
        sumTechnical [itemC2] / ([itemC2] : List HistoryItem).length +
        sumProblemSolving [itemC2] / ([itemC2] : List HistoryItem).length +
        sumPresence [itemC2] / ([itemC2] : List HistoryItem).length) / 4) =
      1 / 100 ∧
    (0 : ℚ) ≠ 1 / 100 := by
  have h1 : (buildFallbackReport [itemC2] cfg0 plan0).overallScore = 0 := by
    show (summarizeScores [itemC2]).1 = 0
    rw [summarizeScores_nonempty [itemC2] (by simp)]
    norm_num [sumCommunication, sumTechnical, sumProblemSolving, sumPresence,
      itemC2, round2]
  refine ⟨h1, ?_, by norm_num⟩
  norm_num [sumCommunication, sumTechnical, sumProblemSolving, sumPresence,
    itemC2, round2]

/-- Claim C2 (corrected), amended: the fallback report built from an empty
history has `overallScore` 0 and no score summary; built from a non-empty
history it has `overallScore` equal to the mean of the four per-dimension
means *each first rounded to two decimals*, that mean itself rounded to two
decimals, and the rounded per-dimension means as its summary. -/
theorem c2_amended (history : List HistoryItem) (config : InterviewConfig)
    (plan : InterviewPlan) :
    (history = [] →
      (buildFallbackReport history config plan).overallScore = 0 ∧
      (buildFallbackReport history config plan).scoresSummary = none) ∧
    (history ≠ [] →
      (buildFallbackReport history config plan).overallScore =
        round2 ((round2 (sumCommunication history / history.length) +
            round2 (sumTechnical history / history.length) +
            round2 (sumProblemSolving history / history.length) +
            round2 (sumPresence history / history.length)) / 4) ∧
      (buildFallbackReport history config plan).scoresSummary =
        some
          { communication := round2 (sumCommunication history / history.length)
            technical := round2 (sumTechnical history / history.length)
            problemSolving := round2 (sumProblemSolving history / history.length)
            presence := round2 (sumPresence history / history.length) }) := by
  constructor
  · rintro rfl
    exact ⟨rfl, rfl⟩
  · intro hne
    have hs := summarizeScores_nonempty history hne
    constructor
    · show (summarizeScores history).1 = _
      rw [hs]
    · show (summarizeScores history).2 = _
      rw [hs]

/-- Witness for `c2_amended`: instantiated on the empty history and on the
concrete one-item history `[itemC2]`. -/
theorem c2_amended_witness :
    (buildFallbackReport [] cfg0 plan0).overallScore = 0 ∧
    (buildFallbackReport [itemC2] cfg0 plan0).overallScore =
      round2 ((round2 (sumCommunication [itemC2] / ([itemC2] : List HistoryItem).length) +
          round2 (sumTechnical [itemC2] / ([itemC2] : List HistoryItem).length) +
          round2 (sumProblemSolving [itemC2] / ([itemC2] : List HistoryItem).length) +
          round2 (sumPresence [itemC2] / ([itemC2] : List HistoryItem).length)) / 4) :=
  ⟨((c2_amended [] cfg0 plan0).1 rfl).1,
    ((c2_amended [itemC2] cfg0 plan0).2 (by simp)).1⟩

/-- Claim C6 (corrected), counterexample: with the recording subsystem
unavailable, `start` throws — but the call is not free of state mutation: it
sets the error-message state (`setError`) before raising, so the state after
a throwing call differs from the state before it. -/
theorem c6_counterexample :
    (recorderStart { mediaRecorderAvailable := false, stream := none }
        { isRecording := false, error := none, recorder := none, chunks := [] }).2.isSome
      = true ∧
    (recorderStart { mediaRecorderAvailable := false, stream := none }
        { isRecording := false, error := none, recorder := none, chunks := [] }).1.error
      = some "MediaRecorder indisponivel neste navegador." ∧
    (recorderStart { mediaRecorderAvailable := false, stream := none }
        { isRecording := false, error := none, recorder := none, chunks := [] }).1
      ≠ { isRecording := false, error := none, recorder := none, chunks := [] } := by
  refine ⟨rfl, rfl, by decide⟩

/-- Claim C6 (corrected), amended: `start` throws synchronously (the model is
the synchronous prefix of the handler — no asynchronous work exists before
the throw) exactly when the recording subsystem is unavailable, the stream is
null, or the stream has no audio track; on a throw the recording state
(`isRecording`, the recorder, the chunk buffer) is unchanged, though the
error-message state is updated. -/
theorem c6_amended (env : RecorderEnv) (s : RecorderState) :
    ((recorderStart env s).2.isSome = recorderStartFails env) ∧
    ((recorderStart env s).2.isSome = true →
      (recorderStart env s).1.isRecording = s.isRecording ∧
      (recorderStart env s).1.recorder = s.recorder ∧
      (recorderStart env s).1.chunks = s.chunks) := by
  obtain ⟨avail, stream⟩ := env
  cases avail with
  | false =>
      exact ⟨rfl, fun _ => ⟨rfl, rfl, rfl⟩⟩
  | true =>
      cases stream with
      | none => exact ⟨rfl, fun _ => ⟨rfl, rfl, rfl⟩⟩
      | some st =>
          by_cases ht : st.audioTracks.length = 0
          · constructor
            · simp [recorderStart, recorderStartFails, ht, List.isEmpty_iff,
                List.length_eq_zero.mp ht]
            · intro _
              simp [recorderStart, ht]
          · constructor
            · have hne : st.audioTracks ≠ [] := by
                intro h
                exact ht (by simp [h])
              simp [recorderStart, recorderStartFails, ht, List.isEmpty_iff, hne]
            · intro hthrow
              exfalso
              simp [recorderStart, ht] at hthrow

/-- Witness for `c6_amended`: with no stream, the throwing call leaves the
recording state untouched. -/
theorem c6_amended_witness :
    (recorderStart { mediaRecorderAvailable := true, stream := none }
        { isRecording := false, error := none, recorder := none, chunks := ["old"] }).1.chunks
      = ["old"] :=
  ((c6_amended { mediaRecorderAvailable := true, stream := none }
      { isRecording := false, error := none, recorder := none, chunks := ["old"] }).2
    rfl).2.2

/-- Claim C8 (corrected), counterexample: a 2xx response whose body is not
valid JSON does not return a parsed body — `res.json()` rejects, so the call
throws, contradicting the claim that a 2xx response throws nothing. -/
theorem c8_counterexample :
    apiThrows { ok := true, status := 200, bodyText := "not json", bodyJson := none }
      = true := rfl

/-- Claim C8 (corrected), amended: a non-2xx response is mapped to a thrown
error whose message is the `detail` field if the body parses as JSON with a
truthy `detail`, else the `error` field if truthy, else the raw body text,
else `"HTTP <status>"` when that is empty; a 2xx response returns the parsed
JSON body when the body parses, and throws a JSON parse error otherwise. -/
theorem c8_amended (res : HttpResponse) :
    (res.ok = false → apiFetch res = Except.error (specErrorMessage res)) ∧
    (res.ok = true → ∀ j, res.bodyJson = some j → apiFetch res = Except.ok j) ∧
    (res.ok = true → res.bodyJson = none → apiThrows res = true) := by
  obtain ⟨ok, status, text, json⟩ := res
  refine ⟨?_, ?_, ?_⟩
  · rintro rfl
    cases json with
    | none =>
        by_cases ht : text = "" <;>
          simp [apiFetch, specErrorMessage, ht]
    | some j =>
        obtain ⟨jd, je⟩ := j
        cases jd with
        | none =>
            cases je with
            | none =>
                by_cases ht : text = "" <;>
                  simp [apiFetch, specErrorMessage, orTruthy, ht]
            | some e =>
                by_cases he : e = "" <;> by_cases ht : text = "" <;>
                  simp [apiFetch, specErrorMessage, orTruthy, he, ht]
        | some d =>
            cases je with
            | none =>
                by_cases hd : d = "" <;> by_cases ht : text = "" <;>
                  simp [apiFetch, specErrorMessage, orTruthy, hd, ht]
            | some e =>
                by_cases hd : d = "" <;> by_cases he : e = "" <;>
                  by_cases ht : text = "" <;>
                  simp [apiFetch, specErrorMessage, orTruthy, hd, he, ht]
  · rintro rfl j rfl
    rfl
  · rintro rfl rfl
    rfl

/-- Witness for `c8_amended`: a concrete 404 with a JSON body carrying a
truthy `detail` is mapped to that detail message, and a concrete 200 with a
JSON body returns it. -/
theorem c8_amended_witness :
    apiFetch ⟨false, 404, "corpo json com detail", some ⟨some "Sem creditos", none⟩⟩
      = Except.error "Sem creditos" ∧
    apiFetch ⟨true, 200, "corpo json vazio", some ⟨none, none⟩⟩
      = Except.ok ⟨none, none⟩ :=
  ⟨(c8_amended ⟨false, 404, "corpo json com detail", some ⟨some "Sem creditos", none⟩⟩).1 rfl,
    (c8_amended ⟨true, 200, "corpo json vazio", some ⟨none, none⟩⟩).2.1 rfl ⟨none, none⟩ rfl⟩

/-- Claim C7 (confirmed): when the evaluation round-trip of an answer fails,
the controller reverts from `evaluating` to `awaiting_answer`; the history
and the question index are unchanged, and no evaluation remains in flight —
the step relation has no other transition out of this situation, so any retry
is a fresh user-initiated recording. -/
theorem c7_eval_failure_reverts (config : InterviewConfig) (plan : InterviewPlan)
    (s : RoomState) (hp : s.pendingEval = true)
    (_hf : s.flowState = FlowState.evaluating) :
    (roomStep config plan s (RoomAction.evalResult none)).flowState =
      FlowState.awaitingAnswer ∧
    (roomStep config plan s (RoomAction.evalResult none)).history = s.history ∧
    (roomStep config plan s (RoomAction.evalResult none)).currentIndex =
      s.currentIndex ∧
    (roomStep config plan s (RoomAction.evalResult none)).pendingEval = false := by
  simp [roomStep, hp]

/-- Witness for `c7_eval_failure_reverts`: after recording an answer to the
first question of the concrete plan and seeing the evaluation fail, the
controller is back in `awaiting_answer` with an empty history. -/
theorem c7_eval_failure_reverts_witness :
    (roomStep cfg0 plan0
        (runRoom cfg0 plan0
          [RoomAction.askStart, RoomAction.askDone, RoomAction.startRec true,
           RoomAction.stopAndEval])
        (RoomAction.evalResult none)).flowState = FlowState.awaitingAnswer ∧
    (roomStep cfg0 plan0
        (runRoom cfg0 plan0
          [RoomAction.askStart, RoomAction.askDone, RoomAction.startRec true,
           RoomAction.stopAndEval])
        (RoomAction.evalResult none)).history =
      (runRoom cfg0 plan0
        [RoomAction.askStart, RoomAction.askDone, RoomAction.startRec true,
         RoomAction.stopAndEval]).history :=
  ⟨(c7_eval_failure_reverts cfg0 plan0
      (runRoom cfg0 plan0
        [RoomAction.askStart, RoomAction.askDone, RoomAction.startRec true,
         RoomAction.stopAndEval]) (by decide) (by decide)).1,
    (c7_eval_failure_reverts cfg0 plan0
      (runRoom cfg0 plan0
        [RoomAction.askStart, RoomAction.askDone, RoomAction.startRec true,
         RoomAction.stopAndEval]) (by decide) (by decide)).2.1⟩

/-- A current question exists exactly when the active list is non-empty. -/
theorem currentQuestion_isSome_pos (config : InterviewConfig)
    (plan : InterviewPlan) (s : RoomState)
    (h : (currentQuestion config plan s).isSome = true) :
    0 < (activeQuestions config plan).length := by
  by_contra hl
  push_neg at hl
  have hnil : activeQuestions config plan = [] :=
    List.length_eq_zero.mp (Nat.le_zero.mp hl)
  simp [currentQuestion, hnil] at h


/-- Step equation: a failed evaluation reverts to `awaiting_answer`. -/
theorem roomStep_evalFail (config : InterviewConfig) (plan : InterviewPlan)
    (s : RoomState) (hp : s.pendingEval = true) :
    roomStep config plan s (RoomAction.evalResult none) =
      { s with flowState := FlowState.awaitingAnswer, pendingEval := false } := by
  simp [roomStep, hp]

/-- Step equation: a successful evaluation with no current question (dead
branch: an evaluation can only be in flight when a question exists) just
clears the pending flag. -/
theorem roomStep_evalSuccess_noq (config : InterviewConfig)
    (plan : InterviewPlan) (s : RoomState) (e : AnswerEvaluation)
    (hp : s.pendingEval = true) (hq : currentQuestion config plan s = none) :
    roomStep config plan s (RoomAction.evalResult (some e)) =
      { s with pendingEval := false } := by
  simp [roomStep, hp, hq]

/-- Step equation: a successful evaluation of the last question appends the
item and, when no finalization is in flight, enters `finished` and starts
one with the new history. -/
theorem roomStep_evalSuccess_last (config : InterviewConfig)
    (plan : InterviewPlan) (s : RoomState) (e : AnswerEvaluation) (q : UiQuestion)
    (hp : s.pendingEval = true) (hq : currentQuestion config plan s = some q)
    (hlast : (activeQuestions config plan).length - 1 ≤ s.currentIndex)
    (hfin : s.finalizing = none) :
    roomStep config plan s (RoomAction.evalResult (some e)) =
      { s with
          history := s.history ++
            [{ questionId := q.id, question := q.title, sectionTag := q.sectionTag,
               difficulty := q.sourceDifficulty, evaluation := e }]
          pendingEval := false
          flowState := FlowState.finished
          finalizing := some (s.history ++
            [{ questionId := q.id, question := q.title, sectionTag := q.sectionTag,
               difficulty := q.sourceDifficulty, evaluation := e }]) } := by
  simp [roomStep, hp, hq, hlast, hfin]

/-- Step equation: a successful evaluation of the last question while a
finalization is already in flight appends the item and changes nothing else
(`finalizeInterview` early-returns on its re-entrancy guard). -/
theorem roomStep_evalSuccess_last_inflight (config : InterviewConfig)
    (plan : InterviewPlan) (s : RoomState) (e : AnswerEvaluation) (q : UiQuestion)
    (hist : List HistoryItem)
    (hp : s.pendingEval = true) (hq : currentQuestion config plan s = some q)
    (hlast : (activeQuestions config plan).length - 1 ≤ s.currentIndex)
    (hfin : s.finalizing = some hist) :
    roomStep config plan s (RoomAction.evalResult (some e)) =
      { s with
          history := s.history ++
            [{ questionId := q.id, question := q.title, sectionTag := q.sectionTag,
               difficulty := q.sourceDifficulty, evaluation := e }]
          pendingEval := false } := by
  simp [roomStep, hp, hq, hlast, hfin]

/-- Step equation: a successful evaluation of a non-last question appends the
item and enters `next_question`. -/
theorem roomStep_evalSuccess_next (config : InterviewConfig)
    (plan : InterviewPlan) (s : RoomState) (e : AnswerEvaluation) (q : UiQuestion)
    (hp : s.pendingEval = true) (hq : currentQuestion config plan s = some q)
    (hlast : ¬((activeQuestions config plan).length - 1 ≤ s.currentIndex)) :
    roomStep config plan s (RoomAction.evalResult (some e)) =
      { s with
          history := s.history ++
            [{ questionId := q.id, question := q.title, sectionTag := q.sectionTag,
               difficulty := q.sourceDifficulty, evaluation := e }]
          pendingEval := false
          flowState := FlowState.nextQuestion } := by
  simp [roomStep, hp, hq, hlast]

/-- Step equation: the `next_question` timeout advances the clamped index and
re-enters `asking` (the index always moves here, because `next_question` is
only reachable strictly before the last question). -/
theorem roomStep_advance_eq (config : InterviewConfig) (plan : InterviewPlan)
    (s : RoomState) (hnq : s.flowState = FlowState.nextQuestion)
    (hL : (activeQuestions config plan).length ≠ 0)
    (hlt : s.currentIndex + 2 ≤ (activeQuestions config plan).length) :
    roomStep config plan s RoomAction.advance =
      { s with currentIndex := s.currentIndex + 1, flowState := FlowState.asking } := by
  have hni : Nat.min (s.currentIndex + 1)
      ((activeQuestions config plan).length - 1) = s.currentIndex + 1 :=
    min_eq_left (by omega)
  simp [roomStep, hnq, hL, hni]

/-- Every action of the interview room preserves the controller invariant. -/
theorem roomInv_step (config : InterviewConfig) (plan : InterviewPlan)
    (s : RoomState) (a : RoomAction) (h : RoomInv config plan s) :
    RoomInv config plan (roomStep config plan s a) := by
  obtain ⟨h0, h1, h2, h3, h4, h5, h6⟩ := h
  cases a with
  | askStart =>
      simp only [roomStep]
      split_ifs with hg
      · obtain ⟨hid, -⟩ := hg
        refine ⟨?_, h1, h2, ?_, ?_, ?_, ?_⟩
        · intro hp
          have hc := h0 hp
          rw [hid] at hc
          simp at hc
        · intro hx; simp at hx
        · intro hx; simp at hx
        · intro _
          exact h5 (Or.inl hid)
        · intro hx; simp at hx
      · exact ⟨h0, h1, h2, h3, h4, h5, h6⟩
  | askDone =>
      simp only [roomStep]
      split_ifs with hg
      · refine ⟨?_, h1, h2, ?_, ?_, ?_, ?_⟩
        · intro hp
          have hc := h0 hp
          rw [hg] at hc
          simp at hc
        · intro hx; simp at hx
        · intro hx; simp at hx
        · intro _
          exact h5 (Or.inr (Or.inl hg))
        · intro hx; simp at hx
      · exact ⟨h0, h1, h2, h3, h4, h5, h6⟩
  | startRec ok =>
      simp only [roomStep]
      split_ifs with hg hok
      · obtain ⟨haw, -⟩ := hg
        refine ⟨?_, h1, h2, ?_, ?_, ?_, ?_⟩
        · intro hp
          have hc := h0 hp
          rw [haw] at hc
          simp at hc
        · intro hx; simp at hx
        · intro hx; simp at hx
        · intro _
          exact h5 (Or.inr (Or.inr (Or.inl haw)))
        · intro hx; simp at hx
      · exact ⟨h0, h1, h2, h3, h4, h5, h6⟩
      · exact ⟨h0, h1, h2, h3, h4, h5, h6⟩
  | stopAndEval =>
      simp only [roomStep]
      split_ifs with hg
      · obtain ⟨hrec, hq⟩ := hg
        have hpos := currentQuestion_isSome_pos config plan s hq
        have hhist : s.history.length ≤ s.currentIndex :=
          h5 (Or.inr (Or.inr (Or.inr hrec)))
        refine ⟨?_, h1, ?_, ?_, ?_, ?_, ?_⟩
        · intro _
          exact Or.inl rfl
        · intro _
          refine ⟨hhist, ?_⟩
          show s.currentIndex + 1 ≤ (activeQuestions config plan).length
          omega
        · intro hx; simp at hx
        · intro hx; simp at hx
        · intro hx
          rcases hx with h' | h' | h' | h' <;> simp at h'
        · intro _ hpend
          simp at hpend
      · exact ⟨h0, h1, h2, h3, h4, h5, h6⟩
  | evalResult r =>
      cases hpe : s.pendingEval with
      | false =>
          have hid : roomStep config plan s (RoomAction.evalResult r) = s := by
            simp [roomStep, hpe]
          rw [hid]
          exact ⟨h0, h1, h2, h3, h4, h5, h6⟩
      | true =>
          cases r with
          | none =>
              rw [roomStep_evalFail config plan s hpe]
              refine ⟨?_, h1, ?_, ?_, ?_, ?_, ?_⟩
              · intro hpx; simp at hpx
              · intro hpx; simp at hpx
              · intro hx; simp at hx
              · intro hx; simp at hx
              · intro _
                exact (h2 hpe).1
              · intro hx; simp at hx
          | some e =>
              cases hq : currentQuestion config plan s with
              | none =>
                  rw [roomStep_evalSuccess_noq config plan s e hpe hq]
                  obtain ⟨ha2, hb2⟩ := h2 hpe
                  refine ⟨?_, h1, ?_, ?_, ?_, ?_, ?_⟩
                  · intro hpx; simp at hpx
                  · intro hpx; simp at hpx
                  · intro hx
                    exact h3 hx
                  · intro hx
                    exact h4 hx
                  · intro hx
                    exact h5 hx
                  · intro _ _
                    exact ⟨Nat.le_succ_of_le ha2, hb2⟩
              | some q =>
                  have hpos : 0 < (activeQuestions config plan).length :=
                    currentQuestion_isSome_pos config plan s (by rw [hq]; rfl)
                  obtain ⟨ha2, hb2⟩ := h2 hpe
                  by_cases hlast :
                      (activeQuestions config plan).length - 1 ≤ s.currentIndex
                  · cases hfin : s.finalizing with
                    | some hist =>
                        rw [roomStep_evalSuccess_last_inflight config plan s e q
                          hist hpe hq hlast hfin]
                        refine ⟨?_, h1, ?_, ?_, ?_, ?_, ?_⟩
                        · intro hpx; simp at hpx
                        · intro hpx; simp at hpx
                        · intro hflow
                          exfalso
                          have hflow' : s.flowState = FlowState.nextQuestion := hflow
                          have hc := h0 hpe
                          rw [hflow'] at hc
                          simp at hc
                        · intro _
                          simp only [List.length_append, List.length_singleton]
                          omega
                        · intro hx
                          exfalso
                          have hx' : s.flowState = FlowState.idle ∨
                              s.flowState = FlowState.asking ∨
                              s.flowState = FlowState.awaitingAnswer ∨
                              s.flowState = FlowState.recording := hx
                          have hc := h0 hpe
                          rcases hc with hce | hce <;>
                            rcases hx' with h' | h' | h' | h' <;>
                            rw [h'] at hce <;> simp at hce
                        · intro _ _
                          simp only [List.length_append, List.length_singleton]
                          exact ⟨by omega, hb2⟩
                    | none =>
                        rw [roomStep_evalSuccess_last config plan s e q hpe hq
                          hlast hfin]
                        refine ⟨?_, h1, ?_, ?_, ?_, ?_, ?_⟩
                        · intro hpx; simp at hpx
                        · intro hpx; simp at hpx
                        · intro hx; simp at hx
                        · intro _
                          simp only [List.length_append, List.length_singleton]
                          omega
                        · intro hx
                          rcases hx with h' | h' | h' | h' <;> simp at h'
                        · intro hx; simp at hx
                  · rw [roomStep_evalSuccess_next config plan s e q hpe hq hlast]
                    refine ⟨?_, h1, ?_, ?_, ?_, ?_, ?_⟩
                    · intro hpx; simp at hpx
                    · intro hpx; simp at hpx
                    · intro _
                      simp only [List.length_append, List.length_singleton]
                      exact ⟨by omega, by omega⟩
                    · intro hx; simp at hx
                    · intro hx
                      rcases hx with h' | h' | h' | h' <;> simp at h'
                    · intro hx; simp at hx
  | advance =>
      by_cases hg : s.flowState = FlowState.nextQuestion ∧
          (activeQuestions config plan).length ≠ 0
      · obtain ⟨hnq, hL⟩ := hg
        obtain ⟨hc3, hd3⟩ := h3 hnq
        rw [roomStep_advance_eq config plan s hnq hL hd3]
        refine ⟨?_, ?_, ?_, ?_, ?_, ?_, ?_⟩
        · intro hp
          exfalso
          have hc := h0 hp
          rw [hnq] at hc
          simp at hc
        · show s.currentIndex + 1 ≤ (activeQuestions config plan).length - 1
          omega
        · intro hp
          exfalso
          have hc := h0 hp
          rw [hnq] at hc
          simp at hc
        · intro hx; simp at hx
        · intro hx; simp at hx
        · intro _
          show s.history.length ≤ s.currentIndex + 1
          exact hc3
        · intro hx; simp at hx
      · have hid : roomStep config plan s RoomAction.advance = s := by
          simp only [roomStep, if_neg hg]
        rw [hid]
        exact ⟨h0, h1, h2, h3, h4, h5, h6⟩
  | finishBegin =>
      cases hfin : s.finalizing with
      | some hist =>
          have hid : roomStep config plan s RoomAction.finishBegin = s := by
            simp [roomStep, hfin]
          rw [hid]
          exact ⟨h0, h1, h2, h3, h4, h5, h6⟩
      | none =>
          have hstep : roomStep config plan s RoomAction.finishBegin =
              { s with
                  flowState := FlowState.finished
                  finalizing := some s.history } := by
            simp [roomStep, hfin]
          rw [hstep]
          refine ⟨?_, h1, ?_, ?_, ?_, ?_, ?_⟩
          · intro _
            exact Or.inr rfl
          · intro hp
            exact h2 hp
          · intro hx; simp at hx
          · intro _
            show s.history.length ≤ (activeQuestions config plan).length
            cases hfs : s.flowState with
            | nextQuestion =>
                obtain ⟨hc3, hd3⟩ := h3 hfs
                omega
            | finished => exact h4 hfs
            | evaluating =>
                cases hpe : s.pendingEval with
                | true =>
                    obtain ⟨ha2, hb2⟩ := h2 hpe
                    omega
                | false =>
                    obtain ⟨ha6, hb6⟩ := h6 hfs hpe
                    omega
            | idle =>
                have hle := h5 (Or.inl hfs)
                omega
            | asking =>
                have hle := h5 (Or.inr (Or.inl hfs))
                omega
            | awaitingAnswer =>
                have hle := h5 (Or.inr (Or.inr (Or.inl hfs)))
                omega
            | recording =>
                have hle := h5 (Or.inr (Or.inr (Or.inr hfs)))
                omega
          · intro hx
            rcases hx with h' | h' | h' | h' <;> simp at h'
          · intro hx; simp at hx
  | finishResolve r =>
      cases hfin : s.finalizing with
      | none =>
          have hid : roomStep config plan s (RoomAction.finishResolve r) = s := by
            simp [roomStep, hfin]
          rw [hid]
          exact ⟨h0, h1, h2, h3, h4, h5, h6⟩
      | some hist =>
          have hstep : roomStep config plan s (RoomAction.finishResolve r) =
              { s with
                  finalizing := none
                  delivered := s.delivered ++
                    [match r with
                     | some rep => rep
                     | none => buildFallbackReport hist config plan] } := by
            simp [roomStep, hfin]
          rw [hstep]
          exact ⟨h0, h1, h2, h3, h4, h5, h6⟩

/-- The invariant holds in the initial state. -/
theorem roomInv_initial (config : InterviewConfig) (plan : InterviewPlan) :
    RoomInv config plan initialRoomState := by
  refine ⟨?_, ?_, ?_, ?_, ?_, ?_, ?_⟩
  · intro hp
    simp [initialRoomState] at hp
  · exact Nat.zero_le _
  · intro hp
    simp [initialRoomState] at hp
  · intro hx
    simp [initialRoomState] at hx
  · intro hx
    simp [initialRoomState] at hx
  · intro _
    exact Nat.le_refl 0
  · intro hx
    simp [initialRoomState] at hx

/-- The invariant holds after any sequence of actions. -/
theorem roomInv_run (config : InterviewConfig) (plan : InterviewPlan)
    (acts : List RoomAction) : RoomInv config plan (runRoom config plan acts) := by
  have hgen : ∀ (l : List RoomAction) (s : RoomState), RoomInv config plan s →
      RoomInv config plan (l.foldl (roomStep config plan) s) := by
    intro l
    induction l with
    | nil => exact fun s hs => hs
    | cons a rest ih => exact fun s hs => ih _ (roomInv_step config plan s a hs)
  exact hgen acts initialRoomState (roomInv_initial config plan)

/-- The invariant bounds the history length by the active list length. -/
theorem roomInv_history_le (config : InterviewConfig) (plan : InterviewPlan)
    (s : RoomState) (h : RoomInv config plan s) :
    s.history.length ≤ (activeQuestions config plan).length := by
  obtain ⟨h0, h1, h2, h3, h4, h5, h6⟩ := h
  cases hfs : s.flowState with
  | nextQuestion =>
      obtain ⟨ha, hb⟩ := h3 hfs
      omega
  | finished => exact h4 hfs
  | evaluating =>
      cases hpe : s.pendingEval with
      | true =>
          obtain ⟨ha, hb⟩ := h2 hpe
          omega
      | false =>
          obtain ⟨ha, hb⟩ := h6 hfs hpe
          omega
  | idle =>
      have hle := h5 (Or.inl hfs)
      omega
  | asking =>
      have hle := h5 (Or.inr (Or.inl hfs))
      omega
  | awaitingAnswer =>
      have hle := h5 (Or.inr (Or.inr (Or.inl hfs)))
      omega
  | recording =>
      have hle := h5 (Or.inr (Or.inr (Or.inr hfs)))
      omega

/-- The active question list is never longer than the plan's question list. -/
theorem activeQuestions_le_plan (config : InterviewConfig) (plan : InterviewPlan) :
    (activeQuestions config plan).length ≤ (plan.questions.getD []).length := by
  simp only [activeQuestions]
  split_ifs with h
  · refine le_trans (List.length_filter_le _ _) ?_
    simp [buildUiQuestions, List.enum_length]
  · simp [buildUiQuestions, List.enum_length]

/-- Claim C1 (corrected), counterexample: answer question one of the concrete
two-question plan and, while the evaluation is in flight, press finish.  The
controller is then in `finished` with an empty history — and when the
in-flight evaluation succeeds, a `HistoryItem` is still appended, so an
append does happen after the finished state is entered. -/
theorem c1_counterexample :
    (runRoom cfg0 plan0 traceC1).flowState = FlowState.finished ∧
    (runRoom cfg0 plan0 traceC1).history.length = 0 ∧
    (roomStep cfg0 plan0 (runRoom cfg0 plan0 traceC1)
        (RoomAction.evalResult (some eval0))).history.length = 1 := by
  refine ⟨by decide, by decide, by decide⟩

/-- Claim C1 (corrected), amended: for every plan and every action sequence,
the number of accumulated `HistoryItem`s never exceeds the active question
list length, which never exceeds the plan's question count; and each
successful evaluation (with a question present) appends exactly one item.
The one caveat against the original claim: an evaluation already in flight
when `finished` is entered still appends its single item afterwards, which
the bound absorbs because that item was counted against its question
index. -/
theorem c1_amended (config : InterviewConfig) (plan : InterviewPlan)
    (acts : List RoomAction) :
    ((runRoom config plan acts).history.length ≤
        (activeQuestions config plan).length ∧
      (activeQuestions config plan).length ≤ (plan.questions.getD []).length) ∧
    (∀ (s : RoomState) (e : AnswerEvaluation), s.pendingEval = true →
      (currentQuestion config plan s).isSome = true →
      (roomStep config plan s (RoomAction.evalResult (some e))).history.length =
        s.history.length + 1) := by
  constructor
  · exact ⟨roomInv_history_le config plan _ (roomInv_run config plan acts),
      activeQuestions_le_plan config plan⟩
  · intro s e hp hq
    obtain ⟨q, hq'⟩ := Option.isSome_iff_exists.mp hq
    by_cases hlast : (activeQuestions config plan).length - 1 ≤ s.currentIndex
    · cases hfin : s.finalizing with
      | some hist =>
          rw [roomStep_evalSuccess_last_inflight config plan s e q hist hp hq'
            hlast hfin]
          simp
      | none =>
          rw [roomStep_evalSuccess_last config plan s e q hp hq' hlast hfin]
          simp
    · rw [roomStep_evalSuccess_next config plan s e q hp hq' hlast]
      simp

/-- Witness for `c1_amended`: the bound on a concrete trace, and the
single-item append for the concrete in-flight evaluation of `traceC1`. -/
theorem c1_amended_witness :
    (runRoom cfg0 plan0 traceC9).history.length ≤
      (activeQuestions cfg0 plan0).length ∧
    (roomStep cfg0 plan0 (runRoom cfg0 plan0 traceC1)
        (RoomAction.evalResult (some eval0))).history.length =
      (runRoom cfg0 plan0 traceC1).history.length + 1 :=
  ⟨(c1_amended cfg0 plan0 traceC9).1.1,
    (c1_amended cfg0 plan0 traceC9).2 (runRoom cfg0 plan0 traceC1) eval0
      (by decide) (by decide)⟩

/-- One step delivers at most one report, and only a `finishResolve` step
delivers any. -/
theorem roomStep_delivered_le (config : InterviewConfig) (plan : InterviewPlan)
    (s : RoomState) (a : RoomAction) :
    (roomStep config plan s a).delivered.length ≤
      s.delivered.length + (if isFinishResolve a then 1 else 0) := by
  cases a with
  | askStart =>
      simp only [roomStep]
      split_ifs <;> simp [isFinishResolve]
  | askDone =>
      simp only [roomStep]
      split_ifs <;> simp [isFinishResolve]
  | startRec ok =>
      simp only [roomStep]
      split_ifs <;> simp [isFinishResolve]
  | stopAndEval =>
      simp only [roomStep]
      split_ifs <;> simp [isFinishResolve]
  | evalResult r =>
      cases hpe : s.pendingEval with
      | false => simp [roomStep, hpe, isFinishResolve]
      | true =>
          cases r with
          | none =>
              rw [roomStep_evalFail config plan s hpe]
              simp [isFinishResolve]
          | some e =>
              cases hq : currentQuestion config plan s with
              | none =>
                  rw [roomStep_evalSuccess_noq config plan s e hpe hq]
                  simp [isFinishResolve]
              | some q =>
                  by_cases hlast :
                      (activeQuestions config plan).length - 1 ≤ s.currentIndex
                  · cases hfin : s.finalizing with
                    | some hist =>
                        rw [roomStep_evalSuccess_last_inflight config plan s e q
                          hist hpe hq hlast hfin]
                        simp [isFinishResolve]
                    | none =>
                        rw [roomStep_evalSuccess_last config plan s e q hpe hq
                          hlast hfin]
                        simp [isFinishResolve]
                  · rw [roomStep_evalSuccess_next config plan s e q hpe hq hlast]
                    simp [isFinishResolve]
  | advance =>
      simp only [roomStep]
      split_ifs <;> simp [isFinishResolve]
  | finishBegin =>
      cases hfin : s.finalizing with
      | some hist => simp [roomStep, hfin, isFinishResolve]
      | none => simp [roomStep, hfin, isFinishResolve]
  | finishResolve r =>
      cases hfin : s.finalizing with
      | none => simp [roomStep, hfin, isFinishResolve]
      | some hist => simp [roomStep, hfin, isFinishResolve]

/-- A whole trace delivers at most one report per `finishResolve` event it
contains. -/
theorem runRoom_delivered_le (config : InterviewConfig) (plan : InterviewPlan)
    (acts : List RoomAction) :
    (runRoom config plan acts).delivered.length ≤ acts.countP isFinishResolve := by
  have hgen : ∀ (l : List RoomAction) (s : RoomState),
      (l.foldl (roomStep config plan) s).delivered.length ≤
        s.delivered.length + l.countP isFinishResolve := by
    intro l
    induction l with
    | nil =>
        intro s
        simp
    | cons a rest ih =>
        intro s
        refine le_trans (ih (roomStep config plan s a)) ?_
        have hstep := roomStep_delivered_le config plan s a
        rw [List.countP_cons]
        cases hfr : isFinishResolve a <;> simp [hfr] at hstep ⊢ <;> omega
  have h := hgen acts initialRoomState
  simpa [runRoom, initialRoomState] using h

/-- Claim C3 (corrected), counterexample: finish, let the finalization settle,
finish again and let it settle — the trace delivers two reports within one
session, because `finishingRef` is reset in the `finally` block and neither
`handleFinish` nor `finalizeInterview` checks the `finished` state. -/
theorem c3_counterexample :
    (runRoom cfg0 plan0 traceC3).delivered.length = 2 := by
  decide

/-- Claim C3 (corrected), amended: at most one finalization is in flight at a
time — a finish action while one is outstanding is a complete no-op and
delivers nothing — and every delivered report corresponds to the settling of
a finalization (`finishResolve`), so a trace delivers at most one report per
settled finalization.  A finish action issued after a finalization has
settled, however, starts a new finalization and can deliver another
report. -/
theorem c3_amended (config : InterviewConfig) (plan : InterviewPlan) :
    (∀ acts : List RoomAction,
      (runRoom config plan acts).delivered.length ≤ acts.countP isFinishResolve) ∧
    (∀ (s : RoomState) (hist : List HistoryItem), s.finalizing = some hist →
      roomStep config plan s RoomAction.finishBegin = s) := by
  constructor
  · exact runRoom_delivered_le config plan
  · intro s hist hfin
    simp [roomStep, hfin]

/-- Witness for `c3_amended`: the report bound on the concrete double-finish
trace, and the no-op finish on the concrete state of `traceC1`, whose
finalization is still in flight. -/
theorem c3_amended_witness :
    (runRoom cfg0 plan0 traceC3).delivered.length ≤
      traceC3.countP isFinishResolve ∧
    roomStep cfg0 plan0 (runRoom cfg0 plan0 traceC1) RoomAction.finishBegin =
      runRoom cfg0 plan0 traceC1 :=
  ⟨(c3_amended cfg0 plan0).1 traceC3,
    (c3_amended cfg0 plan0).2 (runRoom cfg0 plan0 traceC1) [] (by decide)⟩

/-- Claim C9 (corrected), counterexample: after `traceC9` (finish pressed
while the first answer's evaluation was in flight, then that evaluation
succeeded) the controller is in the non-terminal `next_question` state with
one history item, while the in-flight finalization captured the empty
history.  A finish action here is a complete no-op: it triggers no report
generation with the history accumulated so far. -/
theorem c9_counterexample :
    (runRoom cfg0 plan0 traceC9).flowState = FlowState.nextQuestion ∧
    (runRoom cfg0 plan0 traceC9).history.length = 1 ∧
    (runRoom cfg0 plan0 traceC9).finalizing = some [] ∧
    roomStep cfg0 plan0 (runRoom cfg0 plan0 traceC9) RoomAction.finishBegin =
      runRoom cfg0 plan0 traceC9 ∧
    (runRoom cfg0 plan0 traceC9).delivered = [] := by
  have hfin : (runRoom cfg0 plan0 traceC9).finalizing = some [] := by decide
  refine ⟨by decide, by decide, hfin, ?_, by decide⟩
  simp [roomStep, hfin]

/-- Claim C9 (corrected), amended: a finish action from any non-terminal
state *with no finalization in flight* starts report generation with exactly
the history accumulated so far; if the backend report call then fails, the
caller receives the locally built fallback report for that history — and the
fallback report of the empty history has overall score 0. -/
theorem c9_amended (config : InterviewConfig) (plan : InterviewPlan)
    (s : RoomState) (_hterm : s.flowState ≠ FlowState.finished)
    (hfin : s.finalizing = none) :
    (roomStep config plan s RoomAction.finishBegin).flowState =
      FlowState.finished ∧
    (roomStep config plan s RoomAction.finishBegin).finalizing = some s.history ∧
    (roomStep config plan (roomStep config plan s RoomAction.finishBegin)
        (RoomAction.finishResolve none)).delivered =
      s.delivered ++ [buildFallbackReport s.history config plan] ∧
    (buildFallbackReport ([] : List HistoryItem) config plan).overallScore = 0 := by
  have hstep : roomStep config plan s RoomAction.finishBegin =
      { s with
          flowState := FlowState.finished
          finalizing := some s.history } := by
    simp [roomStep, hfin]
  rw [hstep]
  refine ⟨rfl, rfl, ?_, rfl⟩
  simp [roomStep]

/-- Witness for `c9_amended`: a finish from the initial (idle, empty-history)
state followed by a backend failure delivers exactly the empty-history
fallback report. -/
theorem c9_amended_witness :
    (roomStep cfg0 plan0 initialRoomState RoomAction.finishBegin).flowState =
      FlowState.finished ∧
    (roomStep cfg0 plan0 (roomStep cfg0 plan0 initialRoomState
        RoomAction.finishBegin) (RoomAction.finishResolve none)).delivered =
      [buildFallbackReport [] cfg0 plan0] := by
  have h := c9_amended cfg0 plan0 initialRoomState (by decide) rfl
  refine ⟨h.1, ?_⟩
  have h2 := h.2.2.1
  simpa [initialRoomState] using h2
